import Mathlib

/-!
Verification of the Mayrand on-sale scraper (`scripts/scrape_mayrand_onsale.mjs`
and its historical variants) against its natural-language specification.

JavaScript values are shallowly embedded:
* nullable strings become `Option String` (`none` = `null`), with JS truthiness
  (`null` and `""` are falsy) modelled explicitly;
* JS numbers become `ℚ` (the scraper only ever produces decimal fractions, and
  `Number.isFinite` guards keep every published number finite);
* side-effecting loops become pure step functions over explicit state, with the
  browser/DOM modelled as a deterministic environment record.
-/

namespace Mayrand

/-- JS nullable string: `none` is `null`/`undefined`. -/
abbrev JStr := Option String

/-- JS truthiness for nullable strings: `null` and `""` are falsy. -/
def jsTruthy : JStr → Bool
  | none => false
  | some s => s ≠ ""

/-- JS `a || b` on nullable strings. -/
def jsOr (a b : JStr) : JStr := if jsTruthy a then a else b

/-- JS `a ?? b` (nullish coalescing) on optional rationals. -/
def jsNullish (a b : Option ℚ) : Option ℚ :=
  match a with
  | some v => some v
  | none => b

/-- Characters matched by the JS regex class `\s` (the ones reachable in this
pipeline: space, tab, newline, carriage return, vertical tab, form feed and
no-break space ` `). -/
def jsWs (c : Char) : Bool :=
  c = ' ' || c = '\t' || c = '\n' || c = '\r' ||
    c = Char.ofNat 11 || c = Char.ofNat 12 || c = Char.ofNat 160

/-- JS `value.replace(/\s+/g, ' ')`: collapse every run of whitespace to a single
space.  The boolean records whether the previous character was whitespace. -/
def collapseWsAux : Bool → List Char → List Char
  | _, [] => []
  | prevWs, c :: rest =>
    if jsWs c then
      if prevWs then collapseWsAux true rest
      else ' ' :: collapseWsAux true rest
    else c :: collapseWsAux false rest

def collapseWs (cs : List Char) : List Char := collapseWsAux false cs

/-- JS `String.prototype.trim` on a character list. -/
def trimWs (cs : List Char) : List Char :=
  ((cs.dropWhile jsWs).reverse.dropWhile jsWs).reverse

/-- Function `normalizeWhitespace` from the script:
`value?.replace(/\s+/g, ' ').replace(/ /g, ' ').trim() ?? null`.
(The second `replace` is subsumed: `\s` already matches ` `, so no
no-break space survives the first one.) -/
def normalizeWhitespace (v : JStr) : JStr :=
  match v with
  | none => none
  | some s => some (String.mk (trimWs (collapseWs s.data)))

/-- Numeric value of a digit string, most significant digit first. -/
def digitsVal (ds : List Char) : Nat :=
  ds.foldl (fun acc c => 10 * acc + (c.toNat - 48)) 0

/-- JS `Number.parseFloat` restricted to the alphabet `{0-9, .}` that survives the
cleaning step of `parseNumber`: longest prefix of the form
`digits ('.' digits*)?` or `'.' digits`, `none` when no digit is read.
This stage returns the digits as naturals — `(integer part, fraction part,
number of fraction digits)` — so that it stays kernel-computable; the
rational value is assembled by `ratOfScan`. -/
def jsParseFloatScan (cs : List Char) : Option (Nat × Nat × Nat) :=
  let intPart := cs.takeWhile Char.isDigit
  if intPart.isEmpty then
    match cs with
    | '.' :: r2 =>
      let frac := r2.takeWhile Char.isDigit
      if frac.isEmpty then none
      else some (0, digitsVal frac, frac.length)
    | _ => none
  else
    match cs.drop intPart.length with
    | '.' :: r2 =>
      let frac := r2.takeWhile Char.isDigit
      some (digitsVal intPart, digitsVal frac, frac.length)
    | _ => some (digitsVal intPart, 0, 0)

/-- The rational value `i + f / 10^l` of a `jsParseFloatScan` result.
(Idealisation: in ℚ every parse is finite, whereas JS `parseFloat` would
overflow to `Infinity` — and hence `parseNumber` to `null` — only for
inputs of 300+ digits.) -/
def ratOfScan (t : Nat × Nat × Nat) : ℚ :=
  if t.2.2 = 0 then (t.1 : ℚ) else (t.1 : ℚ) + (t.2.1 : ℚ) / (10 : ℚ) ^ t.2.2

/-- One cleaning pass of `parseNumber`: the chained `replace` calls keep
digits, turn `,` into `.`, keep `.`, and erase everything else (whitespace,
`$`, minus signs, letters, …). -/
def cleanNumberChar (c : Char) : Option Char :=
  if c.isDigit then some c
  else if c = ',' || c = '.' then some '.'
  else none

/-- The decidable part of `parseNumber`: cleaning plus digit scanning. -/
def parseNumberScan (v : JStr) : Option (Nat × Nat × Nat) :=
  match v with
  | none => none
  | some s =>
    if s = "" then none
    else
      let cleaned := s.data.filterMap cleanNumberChar
      if cleaned.isEmpty then none else jsParseFloatScan cleaned

/-- Function `parseNumber` from the script. -/
def parseNumber (v : JStr) : Option ℚ :=
  (parseNumberScan v).map ratOfScan

/-- The `{sale, regular}` pair produced by the price normalizer. -/
structure PricePair where
  sale : Option ℚ
  regular : Option ℚ
  deriving DecidableEq, Repr

/-- The `prices` list inside `parsePriceCandidates`:
`values.map(parseNumber).filter(e => e !== null)`. -/
def parsedPrices (values : List JStr) : List ℚ :=
  (values.map parseNumber).reduceOption

/-- Function `parsePriceCandidates` from the script: parse every candidate, drop the
nulls, sort ascending; `sale` is the first element, `regular` the last but
only when the *parsed list* (duplicates included) has more than one entry. -/
def parsePriceCandidates (values : List JStr) : PricePair :=
  let prices := parsedPrices values
  if prices.isEmpty then ⟨none, none⟩
  else
    let sorted := prices.insertionSort (· ≤ ·)
    ⟨sorted.head?, if 1 < sorted.length then sorted.getLast? else none⟩

/-- The spec's wording of `parsePriceCandidates` (§4.1): `regular` is the
maximum only when more than one *distinct* parsed value exists.  Kept for
comparison with the source definition above. -/
def parsePriceCandidatesSpec (values : List JStr) : PricePair :=
  let prices := parsedPrices values
  if prices.isEmpty then ⟨none, none⟩
  else
    let sorted := prices.insertionSort (· ≤ ·)
    ⟨sorted.head?, if 1 < prices.dedup.length then sorted.getLast? else none⟩

/-- Function `normalizePricePair` from the script. -/
def normalizePricePair (p : PricePair) : PricePair :=
  if p.regular = none ∧ p.sale ≠ none then ⟨none, p.sale⟩
  else if p.sale ≠ none ∧ p.regular ≠ none ∧ p.sale = p.regular then ⟨none, p.regular⟩
  else p

/-- A `CanonicalRecord` as built in `scrapeListing` / `enrichItemsWithDetails`
(`source`, `query` and `scraped_at` are constant strings per run and carry no
logic, so they are kept as plain fields). -/
structure Item where
  source : String := "mayrand"
  query : String := ""
  name : JStr := none
  brand : JStr := none
  sku : JStr := none
  price_sale : Option ℚ := none
  price_regular : Option ℚ := none
  unit_label : JStr := none
  unit_price : Option ℚ := none
  url : JStr := none
  image : JStr := none
  category : JStr := none
  scraped_at : String := ""
  deriving DecidableEq, Repr

/-- JS template-literal rendering of a nullable number, as in
`` `${item.price_sale}` `` (`null` prints as `"null"`).  The numeral
formatting is modelled by Lean's `ℚ` printer; only injectivity per equal
inputs matters for the deduplication theorems. -/
def numOrNullStr : Option ℚ → String
  | none => "null"
  | some q => toString q

/-- Function `buildFallbackKey` from the script:
`` item?.name ? `${item.name}__${item.price_sale}__${item.unit_label || ''}` : null ``. -/
def buildFallbackKey (item : Item) : JStr :=
  if jsTruthy item.name = false then none
  else
    some ((item.name.getD "") ++ "__" ++ numOrNullStr item.price_sale ++ "__"
      ++ (if jsTruthy item.unit_label then item.unit_label.getD "" else ""))

/-- Function `uniqueKeyForItem` from the script: `item?.sku || item?.url || buildFallbackKey(item)`. -/
def uniqueKeyForItem (item : Item) : JStr :=
  jsOr item.sku (jsOr item.url (buildFallbackKey item))

/-- The key under which a record takes part in deduplication: the truthy view
of `uniqueKeyForItem` (`if (key) { … }` in the script treats `null` and the
empty string alike). -/
def keyOf (item : Item) : Option String :=
  match uniqueKeyForItem item with
  | some k => if k = "" then none else some k
  | none => none

/-- The Identity Key in the spec's words (§3): `sku` if present, else `url`,
else — when the record has a name — the composite of
`(name, price_sale, unit_label)`; "present" is JS truthiness. -/
def specIdentityKey (item : Item) : Option String :=
  if jsTruthy item.sku then item.sku
  else if jsTruthy item.url then item.url
  else if jsTruthy item.name then
    some ((item.name.getD "") ++ "__" ++ numOrNullStr item.price_sale ++ "__"
      ++ (if jsTruthy item.unit_label then item.unit_label.getD "" else ""))
  else none

/-- One step of the deduplication `forEach` in `scrapeListing` / `main`:
state is `(keys already seen, output list)`; a truthy key not seen before is
recorded and its record appended; a seen key is skipped; a keyless record is
appended unconditionally. -/
def dedupStep (acc : List String × List Item) (item : Item) : List String × List Item :=
  match keyOf item with
  | some k => if k ∈ acc.1 then acc else (acc.1 ++ [k], acc.2 ++ [item])
  | none => (acc.1, acc.2 ++ [item])

/-- The aggregated output of the per-page deduplication loop over a full
record list (the same fold appears in `scrapeListing` and again in `main`). -/
def aggregateItems (items : List Item) : List Item :=
  (items.foldl dedupStep ([], [])).2

/-- Recursive rendering of the deduplication fold, used to reason about it:
`dedupSel seen xs` is what the fold appends to the output when the set of
already-seen keys is `seen`. -/
def dedupSel (seen : List String) : List Item → List Item
  | [] => []
  | x :: xs =>
    match keyOf x with
    | some k => if k ∈ seen then dedupSel seen xs else x :: dedupSel (seen ++ [k]) xs
    | none => x :: dedupSel seen xs

/-- The price-combination logic of `enrichItemsWithDetails` for one record:
inputs are the detail page's raw texts, output the record's final
`(price_sale, price_regular)`.  Mirrors the source line by line, including
the `?? item.price_sale` / `?? item.price_regular` fallbacks applied *after*
`normalizePricePair`. -/
structure DetailInfo where
  priceSaleText : JStr := none
  priceRegularText : JStr := none
  offerPrices : List JStr := []
  priceCandidates : List JStr := []
  deriving Repr

def enrichedPriceFields (item : Item) (d : DetailInfo) : PricePair :=
  let parsedSale := parseNumber d.priceSaleText
  let parsedRegular := parseNumber d.priceRegularText
  let offers := ((d.offerPrices.map parseNumber).reduceOption).filter (fun q => q ≠ 0)
  let offerSale := match offers with
    | [] => none
    | x :: xs => some (xs.foldl min x)
  let offerRegular := if 1 < offers.length then
      (match offers with
       | [] => none
       | x :: xs => some (xs.foldl max x))
    else none
  let priceCandidates :=
    if parsedSale ≠ none ∨ parsedRegular ≠ none then PricePair.mk parsedSale parsedRegular
    else parsePriceCandidates d.priceCandidates
  let combinedSale := jsNullish parsedSale (jsNullish offerSale priceCandidates.sale)
  let combinedRegular := jsNullish parsedRegular (jsNullish offerRegular priceCandidates.regular)
  let normalized := normalizePricePair ⟨combinedSale, combinedRegular⟩
  ⟨jsNullish normalized.sale item.price_sale, jsNullish normalized.regular item.price_regular⟩

/-! Section: the `parseUnitPriceText` regex.

The script matches
`/(?:\$|€)?\s*([0-9]+(?:[.,][0-9]+)?)\s*(?:\$|€)?\s*(?:\/|par)\s*([^\n]+)/i`
against the whitespace-normalized input.  The matcher below embeds exactly
this pattern: each quantified piece enumerates its possible remainders in JS
backtracking priority order (greedy pieces longest first), `List.findSome?`
takes the first combination that completes, and the search tries start
positions left to right, as JS `String.match` does. -/

/-- Remainders after `(?:\$|€)?`: consume a currency sign first if present. -/
def curOptions (cs : List Char) : List (List Char) :=
  match cs with
  | c :: rest => if c = '$' ∨ c = '€' then [rest, c :: rest] else [c :: rest]
  | [] => [[]]

/-- Remainders after `\s*`, longest consumption first. -/
def wsOptions (cs : List Char) : List (List Char) :=
  let k := (cs.takeWhile jsWs).length
  (List.range (k + 1)).map (fun i => cs.drop (k - i))

/-- Pattern `([0-9]+)` pieces: `(consumed digits, remainder)`, longest first. -/
def digitOptions (cs : List Char) : List (List Char × List Char) :=
  let k := (cs.takeWhile Char.isDigit).length
  (List.range k).map (fun i => (cs.take (k - i), cs.drop (k - i)))

/-- Pattern `(?:[.,][0-9]+)?` pieces: with-fraction options (longest first), then the
empty option. -/
def fracOptions (cs : List Char) : List (List Char × List Char) :=
  match cs with
  | c :: rest =>
    if c = '.' ∨ c = ',' then
      ((digitOptions rest).map (fun p => (c :: p.1, p.2))) ++ [([], c :: rest)]
    else [([], c :: rest)]
  | [] => [([], [])]

/-- Pattern `(?:\/|par)` with the `i` flag: a slash, or the letters `par` in any
case. -/
def sepSlashPar (cs : List Char) : List (List Char) :=
  (match cs with
   | '/' :: r => [r]
   | _ => []) ++
  (match cs with
   | a :: b :: c :: r =>
     if a.toLower = 'p' ∧ b.toLower = 'a' ∧ c.toLower = 'r' then [r] else []
   | _ => [])

/-- The separator the spec's words describe instead: `/` or the word `per`
(case-insensitively).  Kept for comparison with the source pattern. -/
def sepSlashPerSpec (cs : List Char) : List (List Char) :=
  (match cs with
   | '/' :: r => [r]
   | _ => []) ++
  (match cs with
   | a :: b :: c :: r =>
     if a.toLower = 'p' ∧ b.toLower = 'e' ∧ c.toLower = 'r' then [r] else []
   | _ => [])

/-- Pattern `([^\n]+)` at the end of the pattern: the greedy run of non-newline
characters starting here; fails when empty.  (Nothing follows it, so the
greedy run is the match.) -/
def tailCapture (cs : List Char) : Option (List Char) :=
  let run := cs.takeWhile (fun c => c ≠ '\n')
  if run.isEmpty then none else some run

/-- Match the whole pattern at the current position; returns the two capture
groups (number text, label text). -/
def unitPriceMatchFrom (sep : List Char → List (List Char)) (cs : List Char) :
    Option (List Char × List Char) :=
  (curOptions cs).findSome? fun s1 =>
  (wsOptions s1).findSome? fun s2 =>
  (digitOptions s2).findSome? fun ds =>
  (fracOptions ds.2).findSome? fun fs =>
  (wsOptions fs.2).findSome? fun s5 =>
  (curOptions s5).findSome? fun s6 =>
  (wsOptions s6).findSome? fun s7 =>
  (sep s7).findSome? fun s8 =>
  (wsOptions s8).findSome? fun s9 =>
  (tailCapture s9).map fun lab => (ds.1 ++ fs.1, lab)

/-- Leftmost match: try every start position from the left. -/
def unitPriceSearch (sep : List Char → List (List Char)) :
    List Char → Option (List Char × List Char)
  | [] => unitPriceMatchFrom sep []
  | c :: rest =>
    match unitPriceMatchFrom sep (c :: rest) with
    | some r => some r
    | none => unitPriceSearch sep rest

/-- Function `parseUnitPriceText` up to the regex: the two captured strings, after the
input has been whitespace-normalized; `none` when the pattern does not
match (or the input is falsy). -/
def unitPriceCaptures (sep : List Char → List (List Char)) (v : JStr) :
    Option (String × String) :=
  match v with
  | none => none
  | some s =>
    if s = "" then none
    else
      match unitPriceSearch sep (trimWs (collapseWs s.data)) with
      | none => none
      | some (num, lab) => some (String.mk num, String.mk lab)

/-- The `{unitPrice, unitLabel}` result of `parseUnitPriceText`. -/
structure UnitPriceResult where
  unitPrice : Option ℚ
  unitLabel : JStr
  deriving DecidableEq, Repr

def parseUnitPriceTextWith (sep : List Char → List (List Char)) (v : JStr) :
    UnitPriceResult :=
  match unitPriceCaptures sep v with
  | none => ⟨none, none⟩
  | some (num, lab) => ⟨parseNumber (some num), normalizeWhitespace (some lab)⟩

/-- Function `parseUnitPriceText` from the script (separator `/` or `par`). -/
def parseUnitPriceText (v : JStr) : UnitPriceResult :=
  parseUnitPriceTextWith sepSlashPar v

/-- Function `parseUnitPriceText` as the spec's words describe it (separator `/` or
the word `per`).  Kept for comparison with the source definition. -/
def parseUnitPriceTextSpec (v : JStr) : UnitPriceResult :=
  parseUnitPriceTextWith sepSlashPerSpec v

/-- The listing-page price normalization in `scrapeListing`'s `pageItems` map:
direct sale/regular texts win; otherwise the price candidates are parsed; the
result goes through `normalizePricePair`. -/
def listingPriceFields (priceSaleText priceRegularText : JStr)
    (priceCandidates : List JStr) : PricePair :=
  let parsedSale := parseNumber priceSaleText
  let parsedRegular := parseNumber priceRegularText
  let pair :=
    if parsedSale ≠ none ∨ parsedRegular ≠ none then PricePair.mk parsedSale parsedRegular
    else parsePriceCandidates priceCandidates
  normalizePricePair pair

/-! Section: the publish guard (`readHistoricalCount` and the tail of `main`). -/

/-- The readable fields of a prior `metadata.json`; `none` models an absent
or non-finite field (`Number.isFinite` rejects it). -/
structure MetaFile where
  totalItems : Option ℚ := none
  total_items : Option ℚ := none
  product_count : Option ℚ := none
  deriving Repr

/-- A prior `data.json`: either a parsed JSON array of some length or some
other JSON value. -/
inductive DataFile where
  | arr (n : Nat)
  | nonArr
  deriving DecidableEq, Repr

/-- The on-disk history read at the start of the publish step; `none` models
a missing or unparsable file (the `catch` branches). -/
structure Store where
  metadata : Option MetaFile := none
  dataFile : Option DataFile := none
  deriving Repr

/-- Fallback of `readHistoricalCount` to `data.json`:
`Array.isArray(data) ? data.length : 0`, and `0` when the file is missing or
unparsable. -/
def readCountFromDataFile (st : Store) : ℚ :=
  match st.dataFile with
  | some (.arr n) => (n : ℚ)
  | some .nonArr => 0
  | none => 0

/-- Function `readHistoricalCount` from the script: `metadata.json`'s `totalItems`,
then `total_items`, then `product_count`, then the `data.json` fallback. -/
def readHistoricalCount (st : Store) : ℚ :=
  match st.metadata with
  | some m =>
    match m.totalItems with
    | some v => v
    | none =>
      match m.total_items with
      | some v => v
      | none =>
        match m.product_count with
        | some v => v
        | none => readCountFromDataFile st
  | none => readCountFromDataFile st

/-- What the tail of `main` does after enrichment: `failed` models the thrown
error, `wroteData` the `data.json`/`data.csv` writes, `wroteMeta` the
`metadata.json` write. -/
structure PublishOutcome where
  failed : Bool
  wroteData : Bool
  wroteMeta : Bool
  deriving DecidableEq, Repr

/-- The publish guard in `main`: a zero-item run aborts (writing nothing)
when history is non-empty, writes metadata only when it is not; a non-empty
run writes the dataset and fresh metadata. -/
def publishRun (enrichedCount : Nat) (st : Store) : PublishOutcome :=
  if enrichedCount = 0 then
    if 0 < readHistoricalCount st then ⟨true, false, false⟩
    else ⟨false, false, true⟩
  else ⟨false, true, true⟩

/-! Section: the `scrapeListing` page loop of the current script.

The loop is embedded as a step function over an explicit state, with the
browser modelled as a deterministic environment: `extract p` is the outcome
of the per-page extraction (after its internal retries; `none` = every
attempt threw), `transNext p` / `transGoto p` are the values returned by
`goToNextPage` / `goToPage` when leaving page `p`.  Only `afterActive`
(the re-read active-page indicator) is consulted by the loop. -/

def PAGE_MAX_LIMIT : Nat := 100

structure PagStatus where
  afterActive : Option Nat
  deriving DecidableEq, Repr

structure NextCtl where
  disabled : Bool
  deriving DecidableEq, Repr

structure Extracted where
  results : List Item := []
  visibleCardCount : Nat := 0
  next : Option NextCtl := none
  derivedMax : Option Nat := none
  deriving Repr

structure Env where
  extract : Nat → Option Extracted
  transNext : Nat → Option PagStatus
  transGoto : Nat → Option PagStatus

structure LState where
  page : Nat
  maxPage : Option Nat
  streak : Nat
  pageCount : Nat
  seenKeys : List String
  items : List Item
  deriving Repr

/-- Update `maxPage = maxPage === null ? derived : Math.max(maxPage, derived)`,
applied only when a finite maximum was derived on this page. -/
def maxAfter (cur derived : Option Nat) : Option Nat :=
  match derived with
  | none => cur
  | some d =>
    match cur with
    | none => some d
    | some m => some (max m d)

/-- The pagination transition of one loop iteration: the next-control is
attempted when present and enabled; otherwise (and also when it returned
`null`) `goToPage(currentPage + 1)` is attempted if a known maximum page
lies ahead. -/
def pagStatusAt (env : Env) (page : Nat) (next : Option NextCtl) (maxP : Option Nat) :
    Option PagStatus :=
  let first : Option PagStatus :=
    match next with
    | some n => if n.disabled then none else env.transNext page
    | none => none
  match first with
  | some st => some st
  | none =>
    match maxP with
    | some m => if page < m then env.transGoto page else none
    | none => none

/-- Outcome of one iteration of the `while` loop: either the loop breaks
(with the `stoppedReason` it set, `none` for the bare `break` after a failed
extraction) or it proceeds to the next page. -/
inductive StepRes where
  | stop (reason : Option String) (s : LState)
  | next (s : LState)

/-- One iteration of the current script's `scrapeListing` loop body. -/
def listingStep (env : Env) (s : LState) : StepRes :=
  match env.extract s.page with
  | none => .stop none s
  | some ex =>
    let streakNew := if ex.visibleCardCount = 0 then s.streak + 1 else 0
    let folded := ex.results.foldl dedupStep (s.seenKeys, s.items)
    let maxP := maxAfter s.maxPage ex.derivedMax
    let s' : LState :=
      { page := s.page, maxPage := maxP, streak := streakNew,
        pageCount := s.pageCount + 1, seenKeys := folded.1, items := folded.2 }
    if 2 ≤ streakNew then .stop (some "empty-pages-streak") s'
    else if (match maxP with | some m => decide (m ≤ s.page) | none => false) then
      .stop (some "max-page-reached") s'
    else
      match pagStatusAt env s.page ex.next maxP with
      | none =>
        .stop (some (match ex.next with
          | some n => if n.disabled then "next-disabled" else "no-next-page"
          | none => "no-next-page")) s'
      | some st =>
        if st.afterActive = some (s.page + 1) then .next { s' with page := s.page + 1 }
        else .stop (some "no-next-page") s'

/-- The `TraversalResult` of one query. -/
structure TravResult where
  items : List Item
  pageCount : Nat
  stoppedReason : String
  deriving DecidableEq, Repr

/-- Epilogue `stoppedReason = stoppedReason ?? (currentPage > PAGE_MAX_LIMIT ?
'page-limit-reached' : 'completed')` after the loop. -/
def finalizeRun (reason : Option String) (s : LState) : TravResult :=
  ⟨s.items, s.pageCount,
    match reason with
    | some r => r
    | none => if PAGE_MAX_LIMIT < s.page then "page-limit-reached" else "completed"⟩

/-- Loop `while (currentPage <= PAGE_MAX_LIMIT)`.  The fuel argument only
bounds recursion depth for Lean; starting from page 1 with fuel
`PAGE_MAX_LIMIT + 1` it never runs out before the guard fails (the page
number grows by one per iteration), so the guard — the code's own — decides
termination. -/
def listingLoop (env : Env) : Nat → LState → TravResult
  | 0, s => finalizeRun none s
  | fuel + 1, s =>
    if s.page ≤ PAGE_MAX_LIMIT then
      match listingStep env s with
      | .stop r s' => finalizeRun r s'
      | .next s' => listingLoop env fuel s'
    else finalizeRun none s

/-- Run of `scrapeListing` for one query in the current script, from its initial
state. -/
def scrapeListingRun (env : Env) : TravResult :=
  listingLoop env (PAGE_MAX_LIMIT + 1) ⟨1, none, 0, 0, [], []⟩

/-! Section: the `scrapeListing` page loop of the historical variant.

The repository also carries an earlier version of the script whose listing
loop records `lastPageUrl` and stops with `stoppedReason =
'pagination-stalled'` when a transition's resulting URL equals the URL read
just before the transition or the one recorded after the previous
transition.  `url p` is what `page.url()` reports while the loop is on its
`p`-th page; `moveNext p` is the boolean returned by that variant's
`goToNextPage`. -/

structure EnvV1 where
  extract : Nat → Option Extracted
  moveNext : Nat → Bool
  url : Nat → String

structure LStateV1 where
  page : Nat
  maxPage : Option Nat
  streak : Nat
  pageCount : Nat
  items : List Item
  lastPageUrl : Option String
  deriving Repr

/-- Whether the variant's loop body sets `movedToNext`: the enabled
next-control path first, else the direct `goToPage(currentPage + 1)` path,
which is taken (and unconditionally marks the move as done) whenever a known
maximum page lies ahead. -/
def movedToNextV1 (env : EnvV1) (page : Nat) (next : Option NextCtl) (maxP : Option Nat) :
    Bool :=
  let first :=
    match next with
    | some n => !n.disabled && env.moveNext page
    | none => false
  first || (match maxP with | some m => decide (page < m) | none => false)

inductive StepResV1 where
  | stop (reason : Option String) (s : LStateV1)
  | next (s : LStateV1)

/-- One iteration of the historical variant's `scrapeListing` loop body.
Differences from the current script mirrored here: records are appended
without deduplication, `maxPage` is derived only once, and the
`pagination-stalled` check replaces the active-page comparison. -/
def listingStepV1 (env : EnvV1) (s : LStateV1) : StepResV1 :=
  match env.extract s.page with
  | none => .stop none s
  | some ex =>
    let streakNew := if ex.visibleCardCount = 0 then s.streak + 1 else 0
    let maxP := if s.maxPage = none then ex.derivedMax else s.maxPage
    let s' : LStateV1 :=
      { s with
        maxPage := maxP
        streak := streakNew
        pageCount := s.pageCount + 1
        items := s.items ++ ex.results }
    if 2 ≤ streakNew then .stop (some "empty-pages-streak") s'
    else if (match maxP with | some m => decide (m ≤ s.page) | none => false) then
      .stop (some "max-page-reached") s'
    else if movedToNextV1 env s.page ex.next maxP = false then
      .stop (some (match ex.next with
        | some n => if n.disabled then "next-disabled" else "no-next-page"
        | none => "no-next-page")) s'
    else
      let currentUrl := env.url s.page
      let nextUrl := env.url (s.page + 1)
      if nextUrl = currentUrl ∨ some nextUrl = s.lastPageUrl then
        .stop (some "pagination-stalled") s'
      else .next { s' with page := s.page + 1, lastPageUrl := some nextUrl }

/-- The variant's loop epilogue is identical to the current one. -/
def finalizeRunV1 (reason : Option String) (s : LStateV1) : TravResult :=
  ⟨s.items, s.pageCount,
    match reason with
    | some r => r
    | none => if PAGE_MAX_LIMIT < s.page then "page-limit-reached" else "completed"⟩

def listingLoopV1 (env : EnvV1) : Nat → LStateV1 → TravResult
  | 0, s => finalizeRunV1 none s
  | fuel + 1, s =>
    if s.page ≤ PAGE_MAX_LIMIT then
      match listingStepV1 env s with
      | .stop r s' => finalizeRunV1 r s'
      | .next s' => listingLoopV1 env fuel s'
    else finalizeRunV1 none s

/-- Run of `scrapeListing` for one query in the historical variant, from its
initial state. -/
def scrapeListingRunV1 (env : EnvV1) : TravResult :=
  listingLoopV1 env (PAGE_MAX_LIMIT + 1) ⟨1, none, 0, 0, [], none⟩

/-! Section: theorems settling the claims. -/

/-- C9: `normalizePricePair` returns `{sale: null, regular: sale}` when
`regular` is null and `sale` non-null, `{sale: null, regular}` when both are
non-null and equal, the pair unchanged otherwise, and consequently never
returns a pair with both fields non-null and equal. -/
theorem claimC9 (sale regular : Option ℚ) :
    (regular = none → sale ≠ none → normalizePricePair ⟨sale, regular⟩ = ⟨none, sale⟩)
  ∧ (∀ v : ℚ, sale = some v → regular = some v →
      normalizePricePair ⟨sale, regular⟩ = ⟨none, regular⟩)
  ∧ (¬(regular = none ∧ sale ≠ none) → ¬(sale ≠ none ∧ regular ≠ none ∧ sale = regular) →
      normalizePricePair ⟨sale, regular⟩ = ⟨sale, regular⟩)
  ∧ (∀ a b : ℚ, (normalizePricePair ⟨sale, regular⟩).sale = some a →
      (normalizePricePair ⟨sale, regular⟩).regular = some b → a ≠ b) := by
  refine ⟨?_, ?_, ?_, ?_⟩
  · intro hr hs
    simp [normalizePricePair, hr, hs]
  · rintro v rfl rfl
    simp [normalizePricePair]
  · intro h1 h2
    simp only [normalizePricePair]
    rw [if_neg h1, if_neg h2]
  · intro a b ha hb
    rcases sale with _ | s <;> rcases regular with _ | r
    · simp [normalizePricePair] at ha
    · simp [normalizePricePair] at ha
    · simp [normalizePricePair] at ha
    · by_cases hsr : s = r
      · simp [normalizePricePair, hsr] at ha
      · simp [normalizePricePair, hsr] at ha hb
        exact fun hab => hsr (ha.trans (hab.trans hb.symm))

/-- Witness for C9 at the concrete pair `(5, 5)`. -/
theorem claimC9_witness : normalizePricePair ⟨some 5, some 5⟩ = ⟨none, some 5⟩ :=
  (claimC9 (some 5) (some 5)).2.1 5 rfl rfl

/-- C10: `parseNumber` never yields a negative number — the cleaning step
erases minus signs along with whitespace and currency symbols, so every
parsed value is a digits-and-dot string. -/
theorem claimC10 (v : JStr) (q : ℚ) (h : parseNumber v = some q) : 0 ≤ q := by
  unfold parseNumber at h
  rcases hs : parseNumberScan v with _ | t
  · rw [hs] at h
    simp at h
  · rw [hs] at h
    simp only [Option.map_some'] at h
    rw [← Option.some_inj.mp h]
    unfold ratOfScan
    split <;> positivity

/-- Witness for C10: `parseNumber("5")` is `5`, which is non-negative. -/
theorem claimC10_witness : parseNumber (some "5") = some 5 ∧ (0 : ℚ) ≤ 5 :=
  ⟨by decide, claimC10 (some "5") 5 (by decide)⟩

/-- C2: the publish guard fails (writing nothing) exactly when the new count
is zero and history is positive; with no history a zero count still writes
fresh metadata (and no dataset); a non-zero count writes the dataset and
fresh metadata.  The historical count comes from the prior metadata, falling
back to counting the prior data file, falling back to zero. -/
theorem claimC2 (n : Nat) (st : Store) :
    (n = 0 → 0 < readHistoricalCount st → publishRun n st = ⟨true, false, false⟩)
  ∧ (n = 0 → readHistoricalCount st = 0 → publishRun n st = ⟨false, false, true⟩)
  ∧ (n ≠ 0 → publishRun n st = ⟨false, true, true⟩)
  ∧ (∀ m v, st.metadata = some m → m.totalItems = some v → readHistoricalCount st = v)
  ∧ (∀ k : Nat, st.metadata = none → st.dataFile = some (.arr k) →
      readHistoricalCount st = k)
  ∧ (st.metadata = none → st.dataFile = none → readHistoricalCount st = 0) := by
  refine ⟨?_, ?_, ?_, ?_, ?_, ?_⟩
  · intro hn hh
    simp [publishRun, hn, hh]
  · intro hn hh
    simp [publishRun, hn, hh]
  · intro hn
    simp [publishRun, hn]
  · intro m v hm hv
    simp [readHistoricalCount, hm, hv]
  · intro k hm hd
    simp [readHistoricalCount, readCountFromDataFile, hm, hd]
  · intro hm hd
    simp [readHistoricalCount, readCountFromDataFile, hm, hd]

/-- Witness for C2 at `historicalCount = 120`, `newCount = 0`: the run fails
and writes nothing. -/
theorem claimC2_witness :
    publishRun 0 ⟨some ⟨some 120, none, none⟩, none⟩ = ⟨true, false, false⟩ :=
  (claimC2 0 ⟨some ⟨some 120, none, none⟩, none⟩).1 rfl (by norm_num [readHistoricalCount])

/-- C1: evaluation of the detail-enrichment price logic at the failing
input.  A listing record with `price_sale = 5`, `price_regular = 8`
(invariant-respecting, since `5 ≠ 8`) whose detail page reports the sale and
regular price texts both as `"5 $"` is published with
`price_sale = price_regular = 5`: `normalizePricePair` drops the equal sale,
but the `?? item.price_sale` fallback resurrects it. -/
theorem claimC1 :
    enrichedPriceFields { price_sale := some 5, price_regular := some 8 }
        { priceSaleText := some "5 $", priceRegularText := some "5 $" }
      = ⟨some 5, some 5⟩
  ∧ (5 : ℚ) ≠ 8 := by decide

/-- C4 counterexample: on `["5", "5"]` there is only one distinct parsed
value, yet the script returns `regular = 5` (it tests the length of the
parsed list, duplicates included), while the claim's reading returns
`regular = null`. -/
theorem claimC4_counterexample :
    parsePriceCandidates [some "5", some "5"] = ⟨some 5, some 5⟩
  ∧ parsePriceCandidatesSpec [some "5", some "5"] = ⟨some 5, none⟩
  ∧ parsePriceCandidates [some "5", some "5"]
      ≠ parsePriceCandidatesSpec [some "5", some "5"] := by decide

/-- Helper: the head of an ascending insertion sort is a minimum of the
list. -/
theorem sortedHeadMin (l : List ℚ) (hne : l ≠ []) :
    ∃ m, (l.insertionSort (· ≤ ·)).head? = some m ∧ m ∈ l ∧ ∀ x ∈ l, m ≤ x := by
  have hperm := List.perm_insertionSort (· ≤ ·) l
  have hsorted := List.sorted_insertionSort (· ≤ ·) l
  cases hsort : l.insertionSort (· ≤ ·) with
  | nil =>
    rw [hsort] at hperm
    exact absurd hperm.nil_eq.symm hne
  | cons m t =>
    rw [hsort] at hperm hsorted
    refine ⟨m, rfl, hperm.subset (List.mem_cons_self m t), ?_⟩
    intro x hx
    rcases List.mem_cons.mp (hperm.mem_iff.mpr hx) with rfl | hx'
    · exact le_refl x
    · exact List.rel_of_sorted_cons hsorted x hx'

/-- Helper: the last element of an ascending sorted list is a maximum. -/
theorem sortedGetLastAux (l : List ℚ) (hs : l.Sorted (· ≤ ·)) (hne : l ≠ []) :
    ∃ M, l.getLast? = some M ∧ M ∈ l ∧ ∀ x ∈ l, x ≤ M := by
  induction l with
  | nil => exact absurd rfl hne
  | cons a t ih =>
    cases t with
    | nil =>
      refine ⟨a, rfl, List.mem_cons_self a [], ?_⟩
      intro x hx
      rw [List.mem_singleton.mp hx]
    | cons b t' =>
      obtain ⟨M, h1, h2, h3⟩ := ih hs.of_cons (by simp)
      refine ⟨M, ?_, List.mem_cons_of_mem a h2, ?_⟩
      · rw [List.getLast?_cons_cons]
        exact h1
      · intro x hx
        rcases List.mem_cons.mp hx with rfl | hx'
        · exact List.rel_of_sorted_cons hs M h2
        · exact h3 x hx'

/-- Helper: the last element of an ascending insertion sort is a maximum of
the list. -/
theorem sortedLastMax (l : List ℚ) (hne : l ≠ []) :
    ∃ M, (l.insertionSort (· ≤ ·)).getLast? = some M ∧ M ∈ l ∧ ∀ x ∈ l, x ≤ M := by
  have hperm := List.perm_insertionSort (· ≤ ·) l
  have hsorted := List.sorted_insertionSort (· ≤ ·) l
  have hne' : l.insertionSort (· ≤ ·) ≠ [] := by
    intro hempty
    rw [hempty] at hperm
    exact hne hperm.nil_eq.symm
  obtain ⟨M, h1, h2, h3⟩ := sortedGetLastAux _ hsorted hne'
  exact ⟨M, h1, hperm.subset h2, fun x hx => h3 x (hperm.mem_iff.mpr hx)⟩

/-- C4 (amended): `parsePriceCandidates` parses every candidate with
`parseNumber`; `sale` is the minimum parsed value, and `regular` is the
maximum parsed value when more than one parsed value exists (duplicates
counted — not "distinct values" as the claim put it), `null` otherwise;
with zero parseable candidates both fields are `null`. -/
theorem claimC4_amended (values : List JStr) :
    (parsedPrices values = [] → parsePriceCandidates values = ⟨none, none⟩)
  ∧ (∀ m, (parsePriceCandidates values).sale = some m →
      m ∈ parsedPrices values ∧ ∀ x ∈ parsedPrices values, m ≤ x)
  ∧ (parsedPrices values ≠ [] → (parsePriceCandidates values).sale ≠ none)
  ∧ (1 < (parsedPrices values).length →
      ∃ M, (parsePriceCandidates values).regular = some M ∧ M ∈ parsedPrices values ∧
        ∀ x ∈ parsedPrices values, x ≤ M)
  ∧ ((parsedPrices values).length ≤ 1 → (parsePriceCandidates values).regular = none) := by
  have hlen :
      (parsedPrices values).length = ((parsedPrices values).insertionSort (· ≤ ·)).length :=
    ((List.perm_insertionSort (· ≤ ·) (parsedPrices values)).length_eq).symm
  refine ⟨?_, ?_, ?_, ?_, ?_⟩
  · intro h
    simp [parsePriceCandidates, h]
  · intro m hm
    by_cases hps : parsedPrices values = []
    · simp [parsePriceCandidates, hps] at hm
    · obtain ⟨m', h1, h2, h3⟩ := sortedHeadMin _ hps
      have hsale : (parsePriceCandidates values).sale = some m' := by
        simp only [parsePriceCandidates, List.isEmpty_iff, hps]
        simp [h1]
      rw [hsale] at hm
      rw [← Option.some_inj.mp hm]
      exact ⟨h2, h3⟩
  · intro hps
    obtain ⟨m', h1, _, _⟩ := sortedHeadMin _ hps
    have hsale : (parsePriceCandidates values).sale = some m' := by
      simp only [parsePriceCandidates, List.isEmpty_iff, hps]
      simp [h1]
    rw [hsale]
    exact Option.some_ne_none m'
  · intro hgt
    have hps : parsedPrices values ≠ [] := by
      intro h
      rw [h] at hgt
      simp at hgt
    obtain ⟨M, h1, h2, h3⟩ := sortedLastMax _ hps
    refine ⟨M, ?_, h2, h3⟩
    simp only [parsePriceCandidates, List.isEmpty_iff, hps]
    rw [← hlen]
    simp [hgt, h1, hps]
  · intro hle
    by_cases hps : parsedPrices values = []
    · simp [parsePriceCandidates, hps]
    · simp only [parsePriceCandidates, List.isEmpty_iff, hps]
      rw [← hlen]
      simp [Nat.not_lt.mpr hle, hps]

/-- Witness for C4 at concrete inputs: an unparsable singleton yields
`{null, null}`, and a single parseable candidate yields `regular = null`. -/
theorem claimC4_witness :
    parsePriceCandidates [some "x"] = ⟨none, none⟩
  ∧ (parsePriceCandidates [some "5"]).regular = none :=
  ⟨(claimC4_amended [some "x"]).1 (by decide),
   (claimC4_amended [some "5"]).2.2.2.2 (by decide)⟩

/-- C7 counterexample: the regex separator is `/` or the French word `par`,
not the word `per` the claim states: `"2 per kg"` does not match (both
fields null), while the claim's pattern would yield `{2, "kg"}`. -/
theorem claimC7_counterexample :
    parseUnitPriceText (some "2 per kg") = ⟨none, none⟩
  ∧ parseUnitPriceTextSpec (some "2 per kg") = ⟨some 2, some "kg"⟩
  ∧ parseUnitPriceText (some "2 per kg") ≠ parseUnitPriceTextSpec (some "2 per kg") := by
  decide

/-- C7 (amended): `parseUnitPriceText` matches number, optional currency,
separator, label — the separator being `/` or the French word `par`
(case-insensitively), not `per` — returning the parsed number and the
normalized label, and both fields null when the pattern does not match; in
particular `"1,33$/100g"` yields `{1.33, "100g"}`. -/
theorem claimC7_amended :
    (∀ v, unitPriceCaptures sepSlashPar v = none → parseUnitPriceText v = ⟨none, none⟩)
  ∧ (∀ v num lab, unitPriceCaptures sepSlashPar v = some (num, lab) →
      parseUnitPriceText v = ⟨parseNumber (some num), normalizeWhitespace (some lab)⟩)
  ∧ parseUnitPriceText (some "1,33$/100g") = ⟨some (133 / 100), some "100g"⟩
  ∧ parseUnitPriceText (some "2 par kg") = ⟨some 2, some "kg"⟩
  ∧ parseUnitPriceText (some "2 PAR kg") = ⟨some 2, some "kg"⟩
  ∧ parseUnitPriceText (some "2 per kg") = ⟨none, none⟩
  ∧ parseUnitPriceText none = ⟨none, none⟩ := by
  refine ⟨?_, ?_, ?_, by decide, by decide, by decide, by decide⟩
  · intro v h
    simp [parseUnitPriceText, parseUnitPriceTextWith, h]
  · intro v num lab h
    simp [parseUnitPriceText, parseUnitPriceTextWith, h]
  · have hc : unitPriceCaptures sepSlashPar (some "1,33$/100g") = some ("1,33", "100g") := by
      decide
    have h1 : parseUnitPriceText (some "1,33$/100g")
        = ⟨parseNumber (some "1,33"), normalizeWhitespace (some "100g")⟩ := by
      simp [parseUnitPriceText, parseUnitPriceTextWith, hc]
    have h2 : parseNumberScan (some "1,33") = some (1, 33, 2) := by decide
    have h3 : parseNumber (some "1,33") = some ((1 : ℚ) + 33 / (10 : ℚ) ^ 2) := by
      rw [parseNumber, h2]
      simp [ratOfScan]
    have h4 : normalizeWhitespace (some "100g") = some "100g" := by decide
    rw [h1, h3, h4]
    have : (1 : ℚ) + 33 / (10 : ℚ) ^ 2 = 133 / 100 := by norm_num
    rw [this]

/-- Witness for C7 at a non-matching input. -/
theorem claimC7_witness : parseUnitPriceText (some "abc") = ⟨none, none⟩ :=
  claimC7_amended.1 (some "abc") (by decide)

/-- Helper: truthiness of a nullable string, unpacked. -/
theorem jsTruthy_eq_true {v : JStr} : jsTruthy v = true ↔ ∃ s, v = some s ∧ s ≠ "" := by
  cases v <;> simp [jsTruthy]

/-- Helper: the deduplication fold appends exactly `dedupSel seen xs` to the
output accumulated so far. -/
theorem dedup_foldl_snd (xs : List Item) :
    ∀ (seen : List String) (out : List Item),
      (xs.foldl dedupStep (seen, out)).2 = out ++ dedupSel seen xs := by
  induction xs with
  | nil =>
    intro seen out
    simp [dedupSel]
  | cons x xs ih =>
    intro seen out
    simp only [List.foldl_cons]
    cases hk : keyOf x with
    | none =>
      simp only [dedupStep, hk]
      rw [ih]
      simp [dedupSel, hk]
    | some k =>
      by_cases hmem : k ∈ seen
      · simp only [dedupStep, hk, if_pos hmem]
        rw [ih]
        simp [dedupSel, hk, hmem]
      · simp only [dedupStep, hk, if_neg hmem]
        rw [ih]
        simp [dedupSel, hk, hmem]

/-- Helper: a key already seen contributes nothing more to the output. -/
theorem dedupSel_filter_seen (xs : List Item) :
    ∀ (seen : List String) (k : String), k ∈ seen →
      (dedupSel seen xs).filter (fun it => decide (keyOf it = some k)) = [] := by
  induction xs with
  | nil =>
    intro seen k _
    simp [dedupSel]
  | cons x xs ih =>
    intro seen k hk
    cases hkey : keyOf x with
    | none =>
      simp only [dedupSel, hkey]
      rw [List.filter_cons]
      simp [hkey, ih seen k hk]
    | some kx =>
      by_cases hmem : kx ∈ seen
      · simp only [dedupSel, hkey, if_pos hmem]
        exact ih seen k hk
      · have hne : kx ≠ k := fun h => hmem (h ▸ hk)
        simp only [dedupSel, hkey, if_neg hmem]
        rw [List.filter_cons]
        simp only [hkey, Option.some_inj, hne, decide_eq_false, Bool.false_eq_true, if_false]
        exact ih (seen ++ [kx]) k (List.mem_append_left _ hk)

/-- Helper: for a key not yet seen, the deduplicated output keeps exactly the
first input record carrying it. -/
theorem dedupSel_filter_not_seen (xs : List Item) :
    ∀ (seen : List String) (k : String), k ∉ seen →
      (dedupSel seen xs).filter (fun it => decide (keyOf it = some k))
        = (xs.filter (fun it => decide (keyOf it = some k))).take 1 := by
  induction xs with
  | nil =>
    intro seen k _
    simp [dedupSel]
  | cons x xs ih =>
    intro seen k hk
    cases hkey : keyOf x with
    | none =>
      simp only [dedupSel, hkey]
      rw [List.filter_cons, List.filter_cons]
      simp [hkey, ih seen k hk]
    | some kx =>
      by_cases hmem : kx ∈ seen
      · have hne : kx ≠ k := fun h => hk (h ▸ hmem)
        simp only [dedupSel, hkey, if_pos hmem]
        rw [List.filter_cons]
        simp only [hkey, Option.some_inj, hne, decide_eq_false, Bool.false_eq_true, if_false]
        exact ih seen k hk
      · simp only [dedupSel, hkey, if_neg hmem]
        by_cases hkk : kx = k
        · subst hkk
          rw [List.filter_cons, List.filter_cons]
          simp only [hkey, Option.some_inj, decide_eq_true_eq, if_pos rfl]
          rw [dedupSel_filter_seen xs (seen ++ [kx]) kx (by simp)]
          simp
        · rw [List.filter_cons, List.filter_cons]
          simp only [hkey, Option.some_inj, hkk, decide_eq_false, Bool.false_eq_true, if_false]
          refine ih (seen ++ [kx]) k ?_
          intro hmm
          rcases List.mem_append.mp hmm with h | h
          · exact hk h
          · exact hkk (List.mem_singleton.mp h).symm

/-- Helper: keyless records pass through deduplication untouched. -/
theorem dedupSel_filter_none (xs : List Item) :
    ∀ (seen : List String),
      (dedupSel seen xs).filter (fun it => decide (keyOf it = none))
        = xs.filter (fun it => decide (keyOf it = none)) := by
  induction xs with
  | nil =>
    intro seen
    simp [dedupSel]
  | cons x xs ih =>
    intro seen
    cases hkey : keyOf x with
    | none =>
      simp only [dedupSel, hkey]
      rw [List.filter_cons, List.filter_cons]
      simp [hkey, ih seen]
    | some kx =>
      by_cases hmem : kx ∈ seen
      · simp only [dedupSel, hkey, if_pos hmem]
        rw [List.filter_cons]
        simp [hkey, ih seen]
      · simp only [dedupSel, hkey, if_neg hmem]
        rw [List.filter_cons, List.filter_cons]
        simp [hkey, ih (seen ++ [kx])]

/-- Helper: the deduplicated output is a sublist of the input. -/
theorem dedupSel_sublist (xs : List Item) :
    ∀ (seen : List String), (dedupSel seen xs).Sublist xs := by
  induction xs with
  | nil =>
    intro seen
    simp [dedupSel]
  | cons x xs ih =>
    intro seen
    cases hkey : keyOf x with
    | none =>
      simp only [dedupSel, hkey]
      exact (ih seen).cons₂ x
    | some kx =>
      by_cases hmem : kx ∈ seen
      · simp only [dedupSel, hkey, if_pos hmem]
        exact (ih seen).cons x
      · simp only [dedupSel, hkey, if_neg hmem]
        exact (ih (seen ++ [kx])).cons₂ x

/-- Helper: the code's truthy identity key agrees with the spec's stated
priority `sku` then `url` then the `(name, price_sale, unit_label)`
composite. -/
theorem keyOf_eq_specIdentityKey (it : Item) : keyOf it = specIdentityKey it := by
  simp only [keyOf, uniqueKeyForItem, jsOr, specIdentityKey, buildFallbackKey]
  by_cases h1 : jsTruthy it.sku
  · obtain ⟨s, hs, hn⟩ := jsTruthy_eq_true.mp h1
    have hts : jsTruthy (some s) = true := by simp [jsTruthy, hn]
    simp [hs, hts, hn]
  · by_cases h2 : jsTruthy it.url
    · obtain ⟨u, hu, hune⟩ := jsTruthy_eq_true.mp h2
      have htu : jsTruthy (some u) = true := by simp [jsTruthy, hune]
      simp [h1, hu, htu, hune]
    · by_cases h3 : jsTruthy it.name
      · obtain ⟨n, hn, hnne⟩ := jsTruthy_eq_true.mp h3
        have htn : jsTruthy (some n) = true := by simp [jsTruthy, hnne]
        simp only [h1, h2, hn, htn, Option.getD_some, if_false, if_true]
        simp only [Bool.true_eq_false, if_false]
        simp [h1, h2]
        split
        all_goals
          intro hceq
          have hlen := congrArg String.length hceq
          simp only [String.length_append] at hlen
          have h2l : ("__" : String).length = 2 := rfl
          have h0l : ("" : String).length = 0 := rfl
          rw [h2l] at hlen
          rw [h0l] at hlen
          omega
      · simp [h1, h2, h3]

/-- C3: deduplication keys records by `sku`, else `url`, else the
`(name, price_sale, unit_label)` composite (the spec's Identity Key); for
every key only the first-seen record survives into the aggregated output,
keyless records are all appended, and the output is a sublist of the
input. -/
theorem claimC3 (items : List Item) (k : String) :
    (∀ it : Item, keyOf it = specIdentityKey it)
  ∧ (aggregateItems items).Sublist items
  ∧ (aggregateItems items).filter (fun it => decide (keyOf it = some k))
      = (items.filter (fun it => decide (keyOf it = some k))).take 1
  ∧ (aggregateItems items).filter (fun it => decide (keyOf it = none))
      = items.filter (fun it => decide (keyOf it = none)) := by
  have hagg : aggregateItems items = dedupSel [] items := by
    unfold aggregateItems
    rw [dedup_foldl_snd]
    simp
  refine ⟨keyOf_eq_specIdentityKey, ?_, ?_, ?_⟩
  · rw [hagg]
    exact dedupSel_sublist items []
  · rw [hagg]
    exact dedupSel_filter_not_seen items [] k (by simp)
  · rw [hagg]
    exact dedupSel_filter_none items []

/-- Helper: facts about a loop iteration that breaks: the page counter grew
by at most one, the page number is unchanged, the recorded reason is never
`page-limit-reached` (that one is only synthesised after the loop), and a
bare `break` (failed extraction) leaves the state untouched. -/
theorem listingStep_stop_facts (env : Env) (s : LState) (r : Option String) (s' : LState)
    (h : listingStep env s = .stop r s') :
    s'.pageCount ≤ s.pageCount + 1 ∧ s'.page = s.page ∧ r ≠ some "page-limit-reached"
      ∧ (r = none → s' = s) := by
  unfold listingStep at h
  cases hex : env.extract s.page <;> rw [hex] at h
  · cases h
    exact ⟨Nat.le_succ _, rfl, by simp, fun _ => rfl⟩
  · dsimp only at h
    repeat' split at h
    all_goals cases h
    all_goals exact ⟨by simp, rfl, by simp, by simp⟩

/-- Helper: a loop iteration that continues advances the page number and the
page counter by exactly one. -/
theorem listingStep_next_facts (env : Env) (s : LState) (s' : LState)
    (h : listingStep env s = .next s') :
    s'.page = s.page + 1 ∧ s'.pageCount = s.pageCount + 1 := by
  unfold listingStep at h
  cases hex : env.extract s.page <;> rw [hex] at h
  · cases h
  · dsimp only at h
    repeat' split at h
    all_goals cases h
    all_goals exact ⟨rfl, rfl⟩

/-- Helper: the loop's final page counter is bounded by the remaining page
budget. -/
theorem listingLoop_pageCount (env : Env) :
    ∀ (fuel : Nat) (s : LState),
      (listingLoop env fuel s).pageCount ≤ s.pageCount + (PAGE_MAX_LIMIT + 1 - s.page) := by
  intro fuel
  induction fuel with
  | zero =>
    intro s
    simp [listingLoop, finalizeRun]
  | succ fuel ih =>
    intro s
    rw [listingLoop]
    split
    · rename_i hguard
      cases hstep : listingStep env s with
      | stop r s' =>
        have hf := listingStep_stop_facts env s r s' hstep
        simp only [finalizeRun]
        omega
      | next s' =>
        have hn := listingStep_next_facts env s s' hstep
        have := ih s'
        simp only []
        omega
    · simp [finalizeRun]

/-- Helper: when the loop ends for the page-limit reason, every budgeted page
was visited. -/
theorem listingLoop_limit (env : Env) :
    ∀ (fuel : Nat) (s : LState),
      (listingLoop env fuel s).stoppedReason = "page-limit-reached" →
      (listingLoop env fuel s).pageCount = s.pageCount + (PAGE_MAX_LIMIT + 1 - s.page) := by
  intro fuel
  induction fuel with
  | zero =>
    intro s
    simp only [listingLoop, finalizeRun]
    split
    · intro _
      rename_i hgt
      omega
    · intro hcontr
      simp at hcontr
  | succ fuel ih =>
    intro s
    rw [listingLoop]
    split
    · rename_i hguard
      cases hstep : listingStep env s with
      | stop r s' =>
        have hf := listingStep_stop_facts env s r s' hstep
        cases r with
        | none =>
          have hs' : s' = s := hf.2.2.2 rfl
          subst hs'
          simp only [finalizeRun]
          rw [if_neg (by omega)]
          intro hcontr
          simp at hcontr
        | some rs =>
          simp only [finalizeRun]
          intro hcontr
          exact absurd (congrArg some hcontr) hf.2.2.1
      | next s' =>
        intro h
        have hn := listingStep_next_facts env s s' hstep
        have := ih s' h
        simp only [] at h this ⊢
        omega
    · rename_i hguard
      simp only [finalizeRun]
      rw [if_pos (by omega)]
      intro _
      omega

/-- C8: one query's traversal visits at most `PAGE_MAX_LIMIT` (100) pages,
whatever the environment does, and when the hard limit is what ended the
loop (`stoppedReason = 'page-limit-reached'`) exactly 100 pages were
processed. -/
theorem claimC8 (env : Env) :
    (scrapeListingRun env).pageCount ≤ PAGE_MAX_LIMIT
  ∧ ((scrapeListingRun env).stoppedReason = "page-limit-reached" →
      (scrapeListingRun env).pageCount = PAGE_MAX_LIMIT) := by
  constructor
  · have hb := listingLoop_pageCount env (PAGE_MAX_LIMIT + 1) ⟨1, none, 0, 0, [], []⟩
    unfold scrapeListingRun
    dsimp only at hb
    omega
  · intro h
    have hb := listingLoop_limit env (PAGE_MAX_LIMIT + 1) ⟨1, none, 0, 0, [], []⟩ h
    unfold scrapeListingRun
    dsimp only at hb
    omega

/-- Environment for the C8 witness: extraction always succeeds and every
transition really lands on the requested page, so only the hard limit can
stop the loop. -/
def envC8w : Env :=
  { extract := fun _ => some { visibleCardCount := 1, next := some ⟨false⟩ }
    transNext := fun p => some ⟨some (p + 1)⟩
    transGoto := fun _ => none }

/-- Witness for C8: the always-advancing run stops for the page limit with
exactly 100 pages visited. -/
theorem claimC8_witness : (scrapeListingRun envC8w).pageCount = PAGE_MAX_LIMIT :=
  (claimC8 envC8w).2 (by decide)

/-- C6: in any traversal state, a pagination transition whose re-read
active-page indicator differs from the target page stops the query right
there with `stoppedReason = 'no-next-page'` — no further page is
processed. -/
theorem claimC6 (env : Env) (s : LState) (ex : Extracted) (st : PagStatus) (fuel : Nat)
    (hpage : s.page ≤ PAGE_MAX_LIMIT)
    (hex : env.extract s.page = some ex)
    (hstreak : ¬ 2 ≤ (if ex.visibleCardCount = 0 then s.streak + 1 else 0))
    (hmax : (match maxAfter s.maxPage ex.derivedMax with
      | some m => decide (m ≤ s.page) | none => false) = false)
    (hst : pagStatusAt env s.page ex.next (maxAfter s.maxPage ex.derivedMax) = some st)
    (hmis : st.afterActive ≠ some (s.page + 1)) :
    (listingLoop env (fuel + 1) s).stoppedReason = "no-next-page"
  ∧ (listingLoop env (fuel + 1) s).pageCount = s.pageCount + 1 := by
  have hstep : ∃ s', listingStep env s = .stop (some "no-next-page") s'
      ∧ s'.pageCount = s.pageCount + 1 := by
    unfold listingStep
    rw [hex]
    dsimp only
    rw [if_neg hstreak, hmax]
    simp only [Bool.false_eq_true, if_false]
    rw [hst]
    dsimp only
    rw [if_neg hmis]
    exact ⟨_, rfl, rfl⟩
  obtain ⟨s', h1, h2⟩ := hstep
  rw [listingLoop, if_pos hpage, h1]
  simp [finalizeRun, h2]

/-- Environment for the C6 witness: the transition from page 1 reports an
active page of 5 instead of 2. -/
def envC6w : Env :=
  { extract := fun _ => some { visibleCardCount := 1, next := some ⟨false⟩ }
    transNext := fun _ => some ⟨some 5⟩
    transGoto := fun _ => none }

/-- Witness for C6: the mismatched transition ends the run at page 1 with
`no-next-page`. -/
theorem claimC6_witness :
    (listingLoop envC6w 101 ⟨1, none, 0, 0, [], []⟩).stoppedReason = "no-next-page"
  ∧ (listingLoop envC6w 101 ⟨1, none, 0, 0, [], []⟩).pageCount = 0 + 1 :=
  claimC6 envC6w ⟨1, none, 0, 0, [], []⟩ { visibleCardCount := 1, next := some ⟨false⟩ }
    ⟨some 5⟩ 100 (by decide) rfl (by decide) rfl rfl (by decide)

/-- Environment refuting C5: the loop visits URLs `A`, `B`, `A` — the third
page's URL repeats the first page's — yet traversal carries on past the
repeat and ends for an unrelated reason. -/
def envC5cex : EnvV1 :=
  { extract := fun p =>
      if p ≤ 2 then some { visibleCardCount := 1, next := some ⟨false⟩ }
      else some { visibleCardCount := 1 }
    moveNext := fun _ => true
    url := fun p => if p = 1 then "A" else if p = 2 then "B" else "A" }

/-- C5 counterexample: even in the script variant that implements stall
detection, a transition whose resulting URL equals a URL visited two
transitions earlier (`A → B → A`) does not stop the traversal: page 3 is
processed and the run ends with `no-next-page`, never with
`pagination-stalled`.  (The current script has no stall check at all.) -/
theorem claimC5_counterexample :
    (scrapeListingRunV1 envC5cex).stoppedReason = "no-next-page"
  ∧ (scrapeListingRunV1 envC5cex).pageCount = 3
  ∧ envC5cex.url 3 = envC5cex.url 1
  ∧ envC5cex.url 2 ≠ envC5cex.url 1 := by decide

/-- C5 (amended): in the historical script variant (the only version with
stall detection), a transition whose resulting URL equals the URL read just
before the transition, or the URL recorded after the previous transition,
stops the traversal with `stoppedReason = 'pagination-stalled'`; a URL
repeated from any earlier page is not detected, and the current script
records no stall at all. -/
theorem claimC5_amended (env : EnvV1) (s : LStateV1) (ex : Extracted) (fuel : Nat)
    (hpage : s.page ≤ PAGE_MAX_LIMIT)
    (hex : env.extract s.page = some ex)
    (hstreak : ¬ 2 ≤ (if ex.visibleCardCount = 0 then s.streak + 1 else 0))
    (hmax : (match (if s.maxPage = none then ex.derivedMax else s.maxPage) with
      | some m => decide (m ≤ s.page) | none => false) = false)
    (hmoved : movedToNextV1 env s.page ex.next
      (if s.maxPage = none then ex.derivedMax else s.maxPage) = true)
    (hstall : env.url (s.page + 1) = env.url s.page
      ∨ some (env.url (s.page + 1)) = s.lastPageUrl) :
    (listingLoopV1 env (fuel + 1) s).stoppedReason = "pagination-stalled"
  ∧ (listingLoopV1 env (fuel + 1) s).pageCount = s.pageCount + 1 := by
  have hstep : ∃ s', listingStepV1 env s = .stop (some "pagination-stalled") s'
      ∧ s'.pageCount = s.pageCount + 1 := by
    unfold listingStepV1
    rw [hex]
    dsimp only
    rw [if_neg hstreak, hmax]
    simp only [Bool.false_eq_true, if_false]
    rw [hmoved]
    simp only [Bool.true_eq_false, if_false]
    rw [if_pos hstall]
    exact ⟨_, rfl, rfl⟩
  obtain ⟨s', h1, h2⟩ := hstep
  rw [listingLoopV1, if_pos hpage, h1]
  simp [finalizeRunV1, h2]

/-- Environment for the C5 witness: the first transition lands back on the
very URL the loop was on. -/
def envC5w : EnvV1 :=
  { extract := fun _ => some { visibleCardCount := 1, next := some ⟨false⟩ }
    moveNext := fun _ => true
    url := fun _ => "A" }

/-- Witness for C5: the immediately-repeated URL stops the variant's run at
page 1 with `pagination-stalled`. -/
theorem claimC5_witness :
    (listingLoopV1 envC5w 101 ⟨1, none, 0, 0, [], none⟩).stoppedReason = "pagination-stalled"
  ∧ (listingLoopV1 envC5w 101 ⟨1, none, 0, 0, [], none⟩).pageCount = 0 + 1 :=
  claimC5_amended envC5w ⟨1, none, 0, 0, [], none⟩
    { visibleCardCount := 1, next := some ⟨false⟩ } 100
    (by decide) rfl (by decide) rfl rfl (Or.inl rfl)

end Mayrand
